import Mathlib

/-!
Verification of the HTTP stream relay subsystem in
app/api/v1/endpoints/music.py: the Range-aware proxy endpoint
proxy_stream, its HLS manifest rewriter, and the segment relay
segment_proxy.

Text is modelled as List Char and byte strings as List Nat with every
byte below 256.  The Python string operations used by the code
(str.splitlines, str.strip, urllib.parse.quote, "\n".join and utf-8
encoding of response text) are embedded below with their Python
semantics.
-/

/-- The set of line terminators recognised by the Python method
str.splitlines: LF, CR, VT, FF, FS, GS, RS, NEL, LINE SEPARATOR and
PARAGRAPH SEPARATOR.  CRLF is handled as a single terminator by
pySplitlines itself. -/
def isLineTerm (c : Char) : Bool :=
  c = '\n' || c = '\r' || c = '\x0b' || c = '\x0c' ||
  c = '\x1c' || c = '\x1d' || c = '\x1e' || c = '\x85' ||
  c = '\u2028' || c = '\u2029'

/-- Characters removed at both ends by the Python method str.strip
called with no argument: exactly the characters whose isspace() is
true. -/
def pyIsSpace (c : Char) : Bool :=
  c = ' ' || c = '\t' || c = '\n' || c = '\r' || c = '\x0b' || c = '\x0c' ||
  c = '\x1c' || c = '\x1d' || c = '\x1e' || c = '\x1f' || c = '\x85' ||
  c = '\xa0' || c = '\u1680' ||
  (0x2000 ≤ c.toNat && c.toNat ≤ 0x200a) ||
  c = '\u2028' || c = '\u2029' || c = '\u202f' || c = '\u205f' ||
  c = '\u3000'

/-- Python str.strip with no argument: drop whitespace from both
ends. -/
def pyStrip (s : List Char) : List Char :=
  ((s.dropWhile pyIsSpace).reverse.dropWhile pyIsSpace).reverse

/-- Worker for pySplitlines.  The accumulator holds the current line in
reverse and the fuel bounds the number of lines still to emit; any
fuel at least the length of the remaining input is enough.  A CRLF
pair counts as one terminator; at the end of the input an
unterminated final line is emitted, but a final terminator adds no
empty line. -/
def splitlinesAux : Nat → List Char → List Char → List (List Char)
  | _, [], acc => if acc.isEmpty then [] else [acc.reverse]
  | 0, _ :: _, _ => []
  | fuel + 1, c :: rest, acc =>
    if isLineTerm c then
      acc.reverse ::
        splitlinesAux fuel
          (if c = '\r' && rest.headD '\x00' = '\n' then rest.tail else rest) []
    else
      splitlinesAux fuel rest (c :: acc)

/-- Python str.splitlines with keepends false. -/
def pySplitlines (s : List Char) : List (List Char) :=
  splitlinesAux s.length s []

/-- Python "\n".join on a list of lines. -/
def joinLines : List (List Char) → List Char
  | [] => []
  | [l] => l
  | l :: l2 :: ls => l ++ '\n' :: joinLines (l2 :: ls)

/-- Bytes never escaped by urllib.parse.quote: ASCII letters, digits,
underscore, dot, hyphen and tilde.  The call in the code passes
safe as the empty string, so no further byte is exempt. -/
def isUnreservedByte (b : Nat) : Bool :=
  (0x41 ≤ b && b ≤ 0x5A) || (0x61 ≤ b && b ≤ 0x7A) ||
  (0x30 ≤ b && b ≤ 0x39) || b = 0x5F || b = 0x2E || b = 0x2D || b = 0x7E

/-- Upper-case hexadecimal digit for a value below 16. -/
def hexDigit (n : Nat) : Char :=
  if n < 10 then Char.ofNat (0x30 + n) else Char.ofNat (0x41 + (n - 10))

/-- Percent-escaping of a single byte as done by urllib.parse.quote:
unreserved bytes stand for themselves, every other byte becomes a
percent sign followed by two upper-case hex digits. -/
def quoteByte (b : Nat) : List Char :=
  if isUnreservedByte b then [Char.ofNat b]
  else ['%', hexDigit (b / 16), hexDigit (b % 16)]

/-- UTF-8 encoding of a single character, as used by urllib.parse.quote
on str input and by the utf-8 encoding of response bodies. -/
def utf8EncodeChar (c : Char) : List Nat :=
  let n := c.toNat
  if n < 0x80 then [n]
  else if n < 0x800 then [0xC0 + n / 64, 0x80 + n % 64]
  else if n < 0x10000 then
    [0xE0 + n / 4096, 0x80 + n / 64 % 64, 0x80 + n % 64]
  else
    [0xF0 + n / 262144, 0x80 + n / 4096 % 64, 0x80 + n / 64 % 64,
     0x80 + n % 64]

/-- UTF-8 encoding of a string. -/
def utf8Encode (s : List Char) : List Nat :=
  s.flatMap utf8EncodeChar

/-- urllib.parse.quote with safe set to the empty string: utf-8 encode,
then percent-escape every byte that is not unreserved. -/
def quote (s : List Char) : List Char :=
  (utf8Encode s).flatMap quoteByte

/-- Value of one hexadecimal digit character, in either case. -/
def hexVal (c : Char) : Option Nat :=
  if '0' ≤ c ∧ c ≤ '9' then some (c.toNat - 0x30)
  else if 'A' ≤ c ∧ c ≤ 'F' then some (c.toNat - 0x37)
  else if 'a' ≤ c ∧ c ≤ 'f' then some (c.toNat - 0x57)
  else none

/-- Byte sequence denoted by a percent-encoded string: a percent sign
followed by two hex digits yields that byte, any other character
stands for its own code point (the inputs we decode are ASCII, where
this agrees with urllib.parse.unquote). -/
def unquoteBytes : List Char → List Nat
  | [] => []
  | '%' :: c1 :: c2 :: rest =>
    if (hexVal c1).isSome && (hexVal c2).isSome then
      (16 * (hexVal c1).getD 0 + (hexVal c2).getD 0) :: unquoteBytes rest
    else
      '%'.toNat :: unquoteBytes (c1 :: c2 :: rest)
  | c :: rest => c.toNat :: unquoteBytes rest

/-- Value of a utf-8 continuation byte. -/
def contByte (b : Nat) : Nat :=
  b - 0x80

/-- Worker for utf8Decode with fuel; each decoded character spends one
unit of fuel, so any fuel at least the byte count suffices. -/
def utf8DecodeAux : Nat → List Nat → List Char
  | _, [] => []
  | 0, _ :: _ => []
  | fuel + 1, b :: rest =>
    if b < 0x80 then Char.ofNat b :: utf8DecodeAux fuel rest
    else if b < 0xE0 then
      Char.ofNat ((b - 0xC0) * 64 + contByte (rest.headD 0)) ::
        utf8DecodeAux fuel (rest.drop 1)
    else if b < 0xF0 then
      Char.ofNat ((b - 0xE0) * 4096 + contByte (rest.headD 0) * 64 +
          contByte ((rest.drop 1).headD 0)) ::
        utf8DecodeAux fuel (rest.drop 2)
    else
      Char.ofNat ((b - 0xF0) * 262144 + contByte (rest.headD 0) * 4096 +
          contByte ((rest.drop 1).headD 0) * 64 +
          contByte ((rest.drop 2).headD 0)) ::
        utf8DecodeAux fuel (rest.drop 3)

/-- UTF-8 decoding of a byte sequence; on the well-formed encodings
produced by utf8Encode it is a left inverse of it. -/
def utf8Decode (bs : List Nat) : List Char :=
  utf8DecodeAux bs.length bs

/-- Percent-decoding of a quoted string back to text: decode the
escapes to bytes, then utf-8 decode. -/
def unquote (s : List Char) : List Char :=
  utf8Decode (unquoteBytes s)

/-- Abbreviation turning a string literal into the character list it
denotes. -/
def chars (s : String) : List Char :=
  s.data

/-!
The manifest rewriter.  In proxy_stream, when the chosen media type
contains the HLS marker, the playlist body is rewritten line by line:

    for line in playlist_text.splitlines():
        s = line.strip()
        if not s or s.startswith("#"):
            rewritten_lines.append(line)
        else:
            rewritten_lines.append(f"SEGMENT_BASE?u=QUOTE_OF_S")
    rewritten_playlist = "\n".join(rewritten_lines)

where SEGMENT_BASE is the url of the segment endpoint for the video and
QUOTE_OF_S is urllib.parse.quote applied to the stripped line with an
empty safe set.
-/

/-- One step of the loop body in proxy_stream: a line whose stripped
form is empty or starts with a hash sign passes through unchanged,
any other line is replaced by the segment url with the stripped line
percent-encoded into the query parameter u. -/
def rewriteLine (base line : List Char) : List Char :=
  let s := pyStrip line
  if s = [] then line
  else if s.head? = some '#' then line
  else base ++ chars "?u=" ++ quote s

/-- The whole manifest rewrite of proxy_stream: split the playlist text
into lines, map the loop body over them, and join with a single line
feed. -/
def rewriteManifest (base text : List Char) : List Char :=
  joinLines ((pySplitlines text).map (rewriteLine base))

/-!
The relay endpoints.  Upstream responses, the outcome of an upstream
GET (a response or a raised transport exception), client responses and
the exception values of the handler are modelled explicitly.  Header
collections are association lists in insertion order, matching dict
semantics for the literal dicts built by the handlers.
-/

/-- An upstream HTTP response as seen through httpx: status code,
headers and body bytes. -/
structure UpResponse where
  status : Nat
  headers : List (String × List Char)
  body : List Nat
deriving DecidableEq

/-- Outcome of one upstream GET: either a response or a raised
transport exception (connect error, timeout and the like) carrying a
message. -/
inductive UpResult where
  | ok (r : UpResponse)
  | exc (msg : String)
deriving DecidableEq

/-- Exception values of the handler: an intentional fastapi
HTTPException with a status code and detail, or any other exception
with its message. -/
inductive PyExc where
  | httpExc (status : Nat) (detail : String)
  | otherExc (msg : String)
deriving DecidableEq

/-- One upstream GET request as issued by the handler: target url and
the headers forwarded with it. -/
structure UpRequest where
  url : String
  headers : List (String × List Char)
deriving DecidableEq

/-- The response a handler hands to the client.  The body field holds
the outcome of consuming the streamed body: the full byte sequence, or
the exception the generator raised after the status line and headers
were already sent. -/
structure ClientResponse where
  status : Nat
  headers : List (String × List Char)
  mediaType : List Char
  body : Except PyExc (List Nat)

/-- Result of one call of a relay handler: the upstream GET requests it
issues, in order, and either a client response or a raised
exception. -/
structure RelayOutcome where
  requests : List UpRequest
  result : Except PyExc ClientResponse

/-- Lookup in a header association list, first match wins. -/
def getH : List (String × List Char) → String → Option (List Char)
  | [], _ => none
  | (k0, v0) :: rest, k => if k0 = k then some v0 else getH rest k

/-- Assignment into a header association list: replace the value in
place if the key is present, append otherwise (dict assignment). -/
def setH : List (String × List Char) → String → List Char → List (String × List Char)
  | [], k, v => [(k, v)]
  | (k0, v0) :: rest, k, v =>
    if k0 = k then (k, v) :: rest else (k0, v0) :: setH rest k v

/-- Removal from a header association list (dict pop with default
None). -/
def popH : List (String × List Char) → String → List (String × List Char)
  | [], _ => []
  | (k0, v0) :: rest, k => if k0 = k then popH rest k else (k0, v0) :: popH rest k

/-- Whether pattern occurs as a contiguous run at the head of the
second list. -/
def startsWithChars : List Char → List Char → Bool
  | [], _ => true
  | _ :: _, [] => false
  | p :: ps, c :: cs => p = c && startsWithChars ps cs

/-- Whether pattern occurs as a contiguous run anywhere in the second
list: the Python operator in on str. -/
def containsChars (pat : List Char) : List Char → Bool
  | [] => pat.isEmpty
  | c :: cs => startsWithChars pat (c :: cs) || containsChars pat cs

/-- The HLS test of proxy_stream: the string mpegurl occurs in the
lower-cased media type. -/
def containsMpegurl (mediaType : List Char) : Bool :=
  containsChars (chars "mpegurl") (mediaType.map Char.toLower)

/-- The headers forwarded upstream: the Range header of the client
request verbatim when present, nothing otherwise. -/
def forwardedHeaders : Option (List Char) → List (String × List Char)
  | some r => [("Range", r)]
  | none => []

/-- The media type chosen from an upstream response: its Content-Type
header if present, a default otherwise. -/
def chosenMediaType (r : UpResponse) (dflt : List Char) : List Char :=
  match getH r.headers "Content-Type" with
  | some v => v
  | none => dflt

/-- Copy Content-Length and then Content-Range from the upstream
response into the response headers when present. -/
def copyLengthRange (r : UpResponse) (hs : List (String × List Char)) :
    List (String × List Char) :=
  let h1 := match getH r.headers "Content-Length" with
    | some v => setH hs "Content-Length" v
    | none => hs
  match getH r.headers "Content-Range" with
  | some v => setH h1 "Content-Range" v
  | none => h1

/-- Number of bytes per chunk of the streamed body (128 KiB). -/
def chunkSize : Nat := 131072

/-- Worker for chunkBytes with an explicit bound on the number of
chunks. -/
def chunkAux : Nat → List Nat → List (List Nat)
  | _, [] => []
  | 0, bs => [bs]
  | fuel + 1, bs => bs.take chunkSize :: chunkAux fuel (bs.drop chunkSize)

/-- The chunks yielded by response.aiter_bytes with chunk_size 131072:
successive runs of at most 131072 bytes covering the body. -/
def chunkBytes (bs : List Nat) : List (List Nat) :=
  chunkAux bs.length bs

/-- Outcome of consuming the streaming generator of a relay handler:
it raises an HTTPException if the status of its own upstream GET is
neither 200 nor 206, a transport failure surfaces as the raised
exception, and otherwise the generator yields the body in 128 KiB
chunks. -/
def streamedBody (up : UpResult) (detail : String) : Except PyExc (List Nat) :=
  match up with
  | .exc m => .error (.otherExc m)
  | .ok r =>
    if r.status = 200 ∨ r.status = 206 then
      .ok (chunkBytes r.body).flatten
    else
      .error (.httpExc r.status detail)

/-- The except clauses at the boundary of both handlers: an
HTTPException is re-raised as it is, any other exception is replaced
by an HTTPException with status 500 and the fixed generic detail of
that handler. -/
def relayBoundary (detail : String) :
    Except PyExc ClientResponse → Except PyExc ClientResponse
  | .ok r => .ok r
  | .error (.httpExc s d) => .error (.httpExc s d)
  | .error (.otherExc _) => .error (.httpExc 500 detail)

/-- The try block of proxy_stream.  Arguments: the video id, whether
the resolver found stream info for it, the Range header of the client
request, the resolved upstream url, the url of the segment endpoint
for this video, and the outcomes of the two upstream GET calls the
handler can make (the header-probing fetch and the in-generator
streaming fetch). -/
def proxy_stream_try (videoId : List Char) (found : Bool)
    (range : Option (List Char)) (url : String) (base : List Char)
    (up1 up2 : UpResult) : RelayOutcome :=
  if found = false then
    ⟨[], .error (.httpExc 404 "Stream info not found")⟩
  else
    let reqHeaders := forwardedHeaders range
    let headers0 : List (String × List Char) := [
      ("Accept-Ranges", chars "bytes"),
      ("Cache-Control", chars "public, max-age=3600"),
      ("Content-Disposition",
        chars "inline; filename=\"" ++ videoId ++ chars ".webm\""),
      ("Access-Control-Allow-Origin", chars "*"),
      ("Access-Control-Expose-Headers", chars "Content-Length, Content-Range")]
    match up1 with
    | .exc m => ⟨[⟨url, reqHeaders⟩], .error (.otherExc m)⟩
    | .ok r1 =>
      if r1.status = 200 ∨ r1.status = 206 then
        let h2 := copyLengthRange r1 headers0
        let mt := chosenMediaType r1 (chars "audio/webm")
        if containsMpegurl mt then
          let h3 := popH h2 "Content-Length"
          let rewritten := rewriteManifest base (utf8Decode r1.body)
          let h4 := setH h3 "Access-Control-Allow-Origin" (chars "*")
          let h5 := setH h4 "Access-Control-Expose-Headers"
            (chars "Content-Length, Content-Range")
          ⟨[⟨url, reqHeaders⟩],
           .ok { status := r1.status, headers := h5,
                 mediaType := chars "application/vnd.apple.mpegurl",
                 body := .ok (utf8Encode rewritten) }⟩
        else
          ⟨[⟨url, reqHeaders⟩, ⟨url, reqHeaders⟩],
           .ok { status := r1.status, headers := h2, mediaType := mt,
                 body := streamedBody up2 "Stream unavailable" }⟩
      else
        ⟨[⟨url, reqHeaders⟩],
         .error (.httpExc r1.status "Stream unavailable")⟩

/-- The whole proxy_stream handler: the try block wrapped in the
exception boundary with the generic detail Stream proxy failed. -/
def proxy_stream (videoId : List Char) (found : Bool)
    (range : Option (List Char)) (url : String) (base : List Char)
    (up1 up2 : UpResult) : RelayOutcome :=
  let o := proxy_stream_try videoId found range url base up1 up2
  ⟨o.requests, relayBoundary "Stream proxy failed" o.result⟩

/-- The try block of segment_proxy.  Arguments: the upstream url taken
from the query parameter u, the Range header of the client request,
and the outcomes of the probing and the streaming upstream GET. -/
def segment_proxy_try (u : String) (range : Option (List Char))
    (up1 up2 : UpResult) : RelayOutcome :=
  let reqHeaders := forwardedHeaders range
  let headers0 : List (String × List Char) := [
    ("Accept-Ranges", chars "bytes"),
    ("Cache-Control", chars "public, max-age=600"),
    ("Access-Control-Allow-Origin", chars "*"),
    ("Access-Control-Expose-Headers", chars "Content-Length, Content-Range")]
  match up1 with
  | .exc m => ⟨[⟨u, reqHeaders⟩], .error (.otherExc m)⟩
  | .ok r1 =>
    if r1.status = 200 ∨ r1.status = 206 then
      let mt := chosenMediaType r1 (chars "video/mp2t")
      let h2 := copyLengthRange r1 headers0
      ⟨[⟨u, reqHeaders⟩, ⟨u, reqHeaders⟩],
       .ok { status := r1.status, headers := h2, mediaType := mt,
             body := streamedBody up2 "Segment unavailable" }⟩
    else
      ⟨[⟨u, reqHeaders⟩],
       .error (.httpExc r1.status "Segment unavailable")⟩

/-- The whole segment_proxy handler: the try block wrapped in the
exception boundary with the generic detail Segment proxy failed. -/
def segment_proxy (u : String) (range : Option (List Char))
    (up1 up2 : UpResult) : RelayOutcome :=
  let o := segment_proxy_try u range up1 up2
  ⟨o.requests, relayBoundary "Segment proxy failed" o.result⟩

/-- Status of a handler result as the client sees it: the status of the
response, or the status of the raised HTTPException. -/
def resultStatus : Except PyExc ClientResponse → Option Nat
  | .ok r => some r.status
  | .error (.httpExc s _) => some s
  | .error (.otherExc _) => none

/-- Headers of a successful handler result. -/
def resultHeaders : Except PyExc ClientResponse → Option (List (String × List Char))
  | .ok r => some r.headers
  | .error _ => none

/-- Media type of a successful handler result. -/
def resultMedia : Except PyExc ClientResponse → Option (List Char)
  | .ok r => some r.mediaType
  | .error _ => none

/-- One named response header of a successful handler result. -/
def resultHeader (e : Except PyExc ClientResponse) (k : String) :
    Option (List Char) :=
  match e with
  | .ok r => getH r.headers k
  | .error _ => none

/-- Body outcome of a successful handler result. -/
def resultBody : Except PyExc ClientResponse → Option (Except PyExc (List Nat))
  | .ok r => some r.body
  | .error _ => none

/-!  Lemmas about the chunked body relay. -/

theorem chunkAux_flatten : ∀ fuel (bs : List Nat), bs.length ≤ fuel →
    (chunkAux fuel bs).flatten = bs := by
  intro fuel
  induction fuel with
  | zero =>
    intro bs h
    have hbs : bs = [] := List.length_eq_zero.mp (Nat.le_zero.mp h)
    subst hbs
    rfl
  | succ n ih =>
    intro bs h
    cases bs with
    | nil => rfl
    | cons b rest =>
      have hlen : ((b :: rest).drop chunkSize).length ≤ n := by
        simp only [List.length_drop, List.length_cons] at *
        have : 0 < chunkSize := by decide
        omega
      simp only [chunkAux, List.flatten_cons, ih _ hlen,
        List.take_append_drop]

/-- The concatenation of the 128 KiB chunks of a body is the body. -/
theorem chunkBytes_flatten (bs : List Nat) : (chunkBytes bs).flatten = bs :=
  chunkAux_flatten bs.length bs le_rfl

/-!  Lemmas about utf-8 and percent-encoding. -/

theorem char_toNat_lt (c : Char) : c.toNat < 1114112 := by
  have h := c.valid
  simp only [Char.toNat]
  rcases h with h | h
  · omega
  · omega

theorem utf8EncodeChar_lt (c : Char) : ∀ b ∈ utf8EncodeChar c, b < 256 := by
  intro b hb
  have hlt := char_toNat_lt c
  unfold utf8EncodeChar at hb
  by_cases h1 : c.toNat < 128
  · simp only [if_pos h1, List.mem_singleton] at hb
    omega
  · by_cases h2 : c.toNat < 2048
    · simp only [if_neg h1, if_pos h2, List.mem_cons, List.mem_singleton,
        List.not_mem_nil, or_false] at hb
      rcases hb with hb | hb <;> omega
    · by_cases h3 : c.toNat < 65536
      · simp only [if_neg h1, if_neg h2, if_pos h3, List.mem_cons,
          List.not_mem_nil, or_false] at hb
        rcases hb with hb | hb | hb <;> omega
      · simp only [if_neg h1, if_neg h2, if_neg h3, List.mem_cons,
          List.not_mem_nil, or_false] at hb
        rcases hb with hb | hb | hb | hb <;> omega

theorem utf8EncodeChar_length_pos (c : Char) :
    0 < (utf8EncodeChar c).length := by
  unfold utf8EncodeChar
  by_cases h1 : c.toNat < 128 <;> by_cases h2 : c.toNat < 2048 <;>
    by_cases h3 : c.toNat < 65536 <;> simp [h1, h2, h3]

theorem utf8DecodeAux_encode (fuel : Nat) (c : Char) (bs : List Nat) :
    utf8DecodeAux (fuel + 1) (utf8EncodeChar c ++ bs) =
      c :: utf8DecodeAux fuel bs := by
  have hlt := char_toNat_lt c
  have hofn := Char.ofNat_toNat c
  unfold utf8EncodeChar
  by_cases h1 : c.toNat < 128
  · simp only [if_pos h1, List.cons_append, List.nil_append]
    simp only [utf8DecodeAux, if_pos h1, hofn]
  · by_cases h2 : c.toNat < 2048
    · have hb1 : ¬(192 + c.toNat / 64 < 128) := by omega
      have hb2 : 192 + c.toNat / 64 < 224 := by omega
      simp only [if_neg h1, if_pos h2, List.cons_append, List.nil_append]
      simp only [utf8DecodeAux, if_neg hb1, if_pos hb2, List.headD_cons,
        List.drop_succ_cons, List.drop_zero, contByte]
      rw [show (192 + c.toNat / 64 - 192) * 64 + (128 + c.toNat % 64 - 128)
            = c.toNat from by omega, hofn]
    · by_cases h3 : c.toNat < 65536
      · have hb1 : ¬(224 + c.toNat / 4096 < 128) := by omega
        have hb2 : ¬(224 + c.toNat / 4096 < 224) := by omega
        have hb3 : 224 + c.toNat / 4096 < 240 := by omega
        simp only [if_neg h1, if_neg h2, if_pos h3, List.cons_append,
          List.nil_append]
        simp only [utf8DecodeAux, if_neg hb1, if_neg hb2, if_pos hb3,
          List.headD_cons, List.drop_succ_cons, List.drop_zero, contByte]
        rw [show (224 + c.toNat / 4096 - 224) * 4096 +
              (128 + c.toNat / 64 % 64 - 128) * 64 +
              (128 + c.toNat % 64 - 128) = c.toNat from by omega, hofn]
      · have hb1 : ¬(240 + c.toNat / 262144 < 128) := by omega
        have hb2 : ¬(240 + c.toNat / 262144 < 224) := by omega
        have hb3 : ¬(240 + c.toNat / 262144 < 240) := by omega
        simp only [if_neg h1, if_neg h2, if_neg h3, List.cons_append,
          List.nil_append]
        simp only [utf8DecodeAux, if_neg hb1, if_neg hb2, if_neg hb3,
          List.headD_cons, List.drop_succ_cons, List.drop_zero, contByte]
        rw [show (240 + c.toNat / 262144 - 240) * 262144 +
              (128 + c.toNat / 4096 % 64 - 128) * 4096 +
              (128 + c.toNat / 64 % 64 - 128) * 64 +
              (128 + c.toNat % 64 - 128) = c.toNat from by omega, hofn]

theorem utf8DecodeAux_utf8Encode :
    ∀ (s : List Char) (fuel : Nat), s.length ≤ fuel →
      utf8DecodeAux fuel (utf8Encode s) = s := by
  intro s
  induction s with
  | nil =>
    intro fuel _
    simp [utf8Encode, utf8DecodeAux]
  | cons c cs ih =>
    intro fuel h
    cases fuel with
    | zero => simp at h
    | succ n =>
      have henc : utf8Encode (c :: cs) = utf8EncodeChar c ++ utf8Encode cs := by
        simp [utf8Encode]
      rw [henc, utf8DecodeAux_encode,
        ih n (by simp only [List.length_cons] at h; omega)]

theorem length_le_utf8Encode_length (s : List Char) :
    s.length ≤ (utf8Encode s).length := by
  induction s with
  | nil => simp [utf8Encode]
  | cons c cs ih =>
    have henc : utf8Encode (c :: cs) = utf8EncodeChar c ++ utf8Encode cs := by
      simp [utf8Encode]
    rw [henc]
    simp only [List.length_append, List.length_cons]
    have := utf8EncodeChar_length_pos c
    omega

/-- utf-8 decoding undoes utf-8 encoding. -/
theorem utf8Decode_utf8Encode (s : List Char) :
    utf8Decode (utf8Encode s) = s := by
  unfold utf8Decode
  exact utf8DecodeAux_utf8Encode s _ (length_le_utf8Encode_length s)

set_option maxRecDepth 4096 in
theorem toNat_ofNat_byte : ∀ b < 256, (Char.ofNat b).toNat = b := by decide

theorem hexVal_hexDigit : ∀ x < 16, hexVal (hexDigit x) = some x := by decide

theorem unquoteBytes_cons_ne (c : Char) (h : c ≠ '%') (cs : List Char) :
    unquoteBytes (c :: cs) = c.toNat :: unquoteBytes cs := by
  rcases cs with _ | ⟨c1, _ | ⟨c2, rest⟩⟩ <;> simp [unquoteBytes, h]

theorem unquoteBytes_quoteByte (b : Nat) (hb : b < 256) (cs : List Char) :
    unquoteBytes (quoteByte b ++ cs) = b :: unquoteBytes cs := by
  unfold quoteByte
  by_cases hu : isUnreservedByte b
  · have hb37 : b ≠ 37 := by
      intro hb37
      subst hb37
      simp [isUnreservedByte] at hu
    have hne : Char.ofNat b ≠ '%' := by
      intro hcp
      apply hb37
      have := congrArg Char.toNat hcp
      rwa [toNat_ofNat_byte b hb] at this
    simp only [if_pos hu, List.cons_append, List.nil_append,
      unquoteBytes_cons_ne _ hne, toNat_ofNat_byte b hb]
  · have hv1 := hexVal_hexDigit (b / 16) (by omega)
    have hv2 := hexVal_hexDigit (b % 16) (by omega)
    simp only [if_neg hu, List.cons_append, List.nil_append, unquoteBytes,
      hv1, hv2, Option.isSome_some, Option.getD_some, Bool.and_self, if_true]
    rw [show 16 * (b / 16) + b % 16 = b from by omega]

theorem unquoteBytes_flatMap_quoteByte :
    ∀ bs : List Nat, (∀ b ∈ bs, b < 256) →
      unquoteBytes (bs.flatMap quoteByte) = bs := by
  intro bs
  induction bs with
  | nil => intro _; rfl
  | cons b rest ih =>
    intro h
    rw [List.flatMap_cons, unquoteBytes_quoteByte b (h b (by simp)),
      ih fun x hx => h x (by simp [hx])]

/-- Percent-decoding the output of quote recovers the utf-8 bytes of
the input. -/
theorem unquoteBytes_quote (s : List Char) :
    unquoteBytes (quote s) = utf8Encode s := by
  refine unquoteBytes_flatMap_quoteByte (utf8Encode s) ?_
  intro b hb
  simp only [utf8Encode, List.mem_flatMap] at hb
  obtain ⟨c, _, hc⟩ := hb
  exact utf8EncodeChar_lt c b hc

/-- The quoting used for the query parameter u is lossless: unquote is
a left inverse of quote on every string. -/
theorem unquote_quote (s : List Char) : unquote (quote s) = s := by
  unfold unquote
  rw [unquoteBytes_quote, utf8Decode_utf8Encode]

/-!  Lemmas about line splitting and joining. -/

theorem splitlinesAux_no_term :
    ∀ (fuel : Nat) (cs acc : List Char), cs.length ≤ fuel →
      (∀ x ∈ acc, isLineTerm x = false) →
      ∀ l ∈ splitlinesAux fuel cs acc, ∀ x ∈ l, isLineTerm x = false := by
  intro fuel
  induction fuel with
  | zero =>
    intro cs acc hlen hacc l hl
    have hnil : cs = [] := List.length_eq_zero.mp (Nat.le_zero.mp hlen)
    subst hnil
    simp only [splitlinesAux] at hl
    split at hl
    · simp at hl
    · simp only [List.mem_singleton] at hl
      subst hl
      intro x hx
      exact hacc x (List.mem_reverse.mp hx)
  | succ n ih =>
    intro cs acc hlen hacc l hl
    cases cs with
    | nil =>
      simp only [splitlinesAux] at hl
      split at hl
      · simp at hl
      · simp only [List.mem_singleton] at hl
        subst hl
        intro x hx
        exact hacc x (List.mem_reverse.mp hx)
    | cons c rest =>
      simp only [splitlinesAux] at hl
      by_cases hterm : isLineTerm c
      · rw [if_pos hterm] at hl
        rcases List.mem_cons.mp hl with hl | hl
        · subst hl
          intro x hx
          exact hacc x (List.mem_reverse.mp hx)
        · refine ih _ [] ?_ (by simp) l hl
          simp only [List.length_cons] at hlen
          split
          · simp only [List.length_tail]
            omega
          · omega
      · rw [if_neg hterm] at hl
        refine ih rest (c :: acc) ?_ ?_ l hl
        · simp only [List.length_cons] at hlen
          omega
        · intro x hx
          rcases List.mem_cons.mp hx with hx | hx
          · subst hx
            simpa using hterm
          · exact hacc x hx

/-- No character of any line produced by pySplitlines is a line
terminator. -/
theorem pySplitlines_no_term (s : List Char) :
    ∀ l ∈ pySplitlines s, ∀ x ∈ l, isLineTerm x = false :=
  splitlinesAux_no_term s.length s [] le_rfl (by simp)

theorem mem_joinLines :
    ∀ (ls : List (List Char)) (c : Char), c ∈ joinLines ls →
      c = '\n' ∨ ∃ l ∈ ls, c ∈ l := by
  intro ls
  induction ls with
  | nil =>
    intro c hc
    simp [joinLines] at hc
  | cons l rest ih =>
    intro c hc
    cases rest with
    | nil =>
      right
      exact ⟨l, by simp, by simpa [joinLines] using hc⟩
    | cons l2 rest2 =>
      simp only [joinLines] at hc
      rcases List.mem_append.mp hc with hc | hc
      · right
        exact ⟨l, by simp, hc⟩
      · rcases List.mem_cons.mp hc with hc | hc
        · left
          exact hc
        · rcases ih c hc with h | ⟨l3, hl3, hcl3⟩
          · left
            exact h
          · right
            exact ⟨l3, List.mem_cons_of_mem _ hl3, hcl3⟩

/-!  Lemmas about the characters quote can emit. -/

theorem utf8Encode_lt (s : List Char) : ∀ b ∈ utf8Encode s, b < 256 := by
  intro b hb
  simp only [utf8Encode, List.mem_flatMap] at hb
  obtain ⟨c, _, hc⟩ := hb
  exact utf8EncodeChar_lt c b hc

theorem hexDigit_ne_cr : ∀ x < 16, hexDigit x ≠ '\r' := by decide

/-- The percent-encoded query parameter never contains a carriage
return. -/
theorem quote_no_cr (s : List Char) : '\r' ∉ quote s := by
  intro hmem
  unfold quote at hmem
  rw [List.mem_flatMap] at hmem
  obtain ⟨b, hb, hcb⟩ := hmem
  have hb256 : b < 256 := utf8Encode_lt s b hb
  unfold quoteByte at hcb
  by_cases hu : isUnreservedByte b
  · rw [if_pos hu] at hcb
    simp only [List.mem_singleton] at hcb
    have h13 : b = 13 := by
      have h2 := congrArg Char.toNat hcb
      rw [toNat_ofNat_byte b hb256] at h2
      rw [show Char.toNat '\x0d' = 13 from rfl] at h2
      omega
    subst h13
    simp [isUnreservedByte] at hu
  · rw [if_neg hu] at hcb
    simp only [List.mem_cons, List.not_mem_nil, or_false] at hcb
    rcases hcb with h | h | h
    · simp at h
    · exact hexDigit_ne_cr (b / 16) (by omega) h.symm
    · exact hexDigit_ne_cr (b % 16) (by omega) h.symm

/-!  Lemmas about header association lists. -/

theorem getH_setH_self : ∀ (hs : List (String × List Char)) (k : String) v,
    getH (setH hs k v) k = some v := by
  intro hs k v
  induction hs with
  | nil => simp [setH, getH]
  | cons p rest ih =>
    by_cases h : p.1 = k
    · simp [setH, getH, h]
    · simp [setH, getH, h, ih]

theorem getH_setH_ne : ∀ (hs : List (String × List Char)) (k k2 : String) v,
    k ≠ k2 → getH (setH hs k v) k2 = getH hs k2 := by
  intro hs k k2 v hne
  induction hs with
  | nil => simp [setH, getH, hne]
  | cons p rest ih =>
    by_cases h : p.1 = k
    · have hp : p.1 ≠ k2 := h ▸ hne
      simp [setH, getH, h, hne, hp]
    · simp [setH, getH, h, ih]

theorem getH_popH_ne : ∀ (hs : List (String × List Char)) (k k2 : String),
    k ≠ k2 → getH (popH hs k) k2 = getH hs k2 := by
  intro hs k k2 hne
  induction hs with
  | nil => simp [popH, getH]
  | cons p rest ih =>
    by_cases h : p.1 = k
    · simp only [popH, if_pos h, ih, getH]
      rw [if_neg (h ▸ hne)]
    · simp [popH, getH, h, ih]

/-- Content-Range survives the header copying when upstream supplied
it. -/
theorem getH_copyLengthRange (r : UpResponse) (hs : List (String × List Char))
    (cr : List Char) (h : getH r.headers "Content-Range" = some cr) :
    getH (copyLengthRange r hs) "Content-Range" = some cr := by
  unfold copyLengthRange
  rw [h]
  exact getH_setH_self _ _ _

/-!  Further structural lemmas about the rewriter. -/

theorem mem_rewriteLine (base l0 : List Char) (x : Char)
    (hx : x ∈ rewriteLine base l0) :
    x ∈ l0 ∨ x ∈ base ∨ x ∈ chars "?u=" ∨ x ∈ quote (pyStrip l0) := by
  unfold rewriteLine at hx
  by_cases h1 : pyStrip l0 = []
  · rw [if_pos h1] at hx
    exact Or.inl hx
  · rw [if_neg h1] at hx
    by_cases h2 : (pyStrip l0).head? = some '#'
    · rw [if_pos h2] at hx
      exact Or.inl hx
    · rw [if_neg h2] at hx
      rcases List.mem_append.mp hx with hx | hx
      · rcases List.mem_append.mp hx with hx | hx
        · exact Or.inr (Or.inl hx)
        · exact Or.inr (Or.inr (Or.inl hx))
      · exact Or.inr (Or.inr (Or.inr hx))

theorem splitlinesAux_append_newline :
    ∀ (f1 : Nat) (cs acc : List Char) (f2 : Nat),
      cs.length + 1 ≤ f1 → cs.length ≤ f2 →
      (cs = [] → acc ≠ []) →
      (∀ c, cs.getLast? = some c → isLineTerm c = false) →
      splitlinesAux f1 (cs ++ ['\n']) acc = splitlinesAux f2 cs acc := by
  intro f1
  induction f1 with
  | zero =>
    intro cs acc f2 hf1 _ _ _
    omega
  | succ n ih =>
    intro cs acc f2 hf1 hf2 hne hlast
    cases cs with
    | nil =>
      have hacc : acc ≠ [] := hne rfl
      have hacc2 : acc.isEmpty = false := by
        cases acc with
        | nil => exact absurd rfl hacc
        | cons a as => rfl
      simp only [List.nil_append, splitlinesAux]
      rw [if_pos (show isLineTerm '\n' = true from rfl)]
      cases n with
      | zero => simp [splitlinesAux, hacc2]
      | succ n2 => simp [splitlinesAux, hacc2]
    | cons c rest =>
      have hf2pos : 0 < f2 := by
        simp only [List.length_cons] at hf2
        omega
      obtain ⟨m, rfl⟩ : ∃ m, f2 = m + 1 := ⟨f2 - 1, by omega⟩
      by_cases hterm : isLineTerm c
      · cases rest with
        | nil =>
          exact absurd (hlast c rfl) (by simp [hterm])
        | cons r rest2 =>
          simp only [List.cons_append, splitlinesAux, if_pos hterm,
            List.append_eq, List.headD_cons, List.tail_cons]
          by_cases hcr : c = '\r' && r = '\n'
          · rw [if_pos hcr, if_pos hcr]
            have hr : r = '\n' := by
              simp only [Bool.and_eq_true, decide_eq_true_eq] at hcr
              exact hcr.2
            have hrest2 : rest2 ≠ [] := by
              intro h0
              subst h0
              subst hr
              exact absurd (hlast '\n' (by rfl)) (by simp [isLineTerm])
            congr 1
            refine ih rest2 [] m ?_ ?_ (fun h => (hrest2 h).elim) ?_
            · simp only [List.length_cons] at hf1
              omega
            · simp only [List.length_cons] at hf2
              omega
            · intro c2 hc2
              apply hlast
              cases rest2 with
              | nil => exact absurd rfl hrest2
              | cons a as =>
                rw [List.getLast?_cons_cons]
                exact hc2
          · rw [if_neg hcr, if_neg hcr]
            congr 1
            refine ih (r :: rest2) [] m ?_ ?_ (by simp) ?_
            · simp only [List.length_cons] at hf1
              simp only [List.length_cons]
              omega
            · simp only [List.length_cons] at hf2
              simp only [List.length_cons]
              omega
            · intro c2 hc2
              apply hlast
              rwa [List.getLast?_cons_cons]
      · simp only [List.cons_append, splitlinesAux, if_neg hterm]
        cases rest with
        | nil =>
          have hn : 0 < n := by
            simp only [List.length_cons] at hf1
            omega
          obtain ⟨n2, rfl⟩ : ∃ n2, n = n2 + 1 := ⟨n - 1, by omega⟩
          simp only [List.nil_append, splitlinesAux]
          rw [if_pos (show isLineTerm '\n' = true from rfl)]
          have : (('\n' = '\r' && List.headD [] '\x00' = '\n')) = false := rfl
          rw [this]
          cases n2 with
          | zero => simp [splitlinesAux]
          | succ n3 => simp [splitlinesAux]
        | cons r rest2 =>
          refine ih (r :: rest2) (c :: acc) m ?_ ?_ (by simp) ?_
          · simp only [List.length_cons] at hf1
            simp only [List.length_cons]
            omega
          · simp only [List.length_cons] at hf2
            simp only [List.length_cons]
            omega
          · intro c2 hc2
            apply hlast
            rwa [List.getLast?_cons_cons]

/-- A single trailing line feed after an input whose last character is
not a terminator adds no line. -/
theorem pySplitlines_append_newline (s : List Char) (hne : s ≠ [])
    (hlast : ∀ c, s.getLast? = some c → isLineTerm c = false) :
    pySplitlines (s ++ ['\n']) = pySplitlines s := by
  unfold pySplitlines
  refine splitlinesAux_append_newline (s ++ ['\n']).length s [] s.length
    (by simp) le_rfl (fun h => (hne h).elim) hlast

/-!  Claims about the manifest rewriter. -/

/-- Claim C1, counterexample: on the upstream body
"#EXTM3U\n#EXT-X-VERSION:3\nseg0.ts\nseg1.ts\n" the rewriter output is
not the text claimed, because the claimed text keeps the trailing line
feed and the rewriter joins with a separator, dropping it. -/
theorem claim_C1_counterexample :
    rewriteManifest
        (chars "https://app.example/api/v1/music/stream/segment/abc123")
        (chars "#EXTM3U\n#EXT-X-VERSION:3\nseg0.ts\nseg1.ts\n") ≠
      chars ("#EXTM3U\n#EXT-X-VERSION:3\n" ++
        "https://app.example/api/v1/music/stream/segment/abc123?u=seg0.ts\n" ++
        "https://app.example/api/v1/music/stream/segment/abc123?u=seg1.ts\n") := by
  decide

/-- Claim C1, amended: for every segment endpoint url, the rewriter
maps the upstream body "#EXTM3U\n#EXT-X-VERSION:3\nseg0.ts\nseg1.ts\n"
to "#EXTM3U\n#EXT-X-VERSION:3\n<segment-endpoint>?u=seg0.ts\n<segment-endpoint>?u=seg1.ts"
with directive lines untouched and each URI line replaced by the
segment endpoint url with the URI in query parameter u, but without
the trailing line feed of the input. -/
theorem claim_C1 (base : List Char) :
    rewriteManifest base (chars "#EXTM3U\n#EXT-X-VERSION:3\nseg0.ts\nseg1.ts\n") =
      chars "#EXTM3U\n#EXT-X-VERSION:3\n" ++ base ++ chars "?u=seg0.ts\n" ++
        base ++ chars "?u=seg1.ts" := by
  have h0 : rewriteManifest base
      (chars "#EXTM3U\n#EXT-X-VERSION:3\nseg0.ts\nseg1.ts\n") =
      chars "#EXTM3U" ++ '\n' :: (chars "#EXT-X-VERSION:3" ++ '\n' ::
        ((base ++ chars "?u=" ++ chars "seg0.ts") ++ '\n' ::
          (base ++ chars "?u=" ++ chars "seg1.ts"))) := rfl
  rw [h0]
  have e1 : chars "#EXTM3U\n#EXT-X-VERSION:3\n" =
      chars "#EXTM3U" ++ '\n' :: (chars "#EXT-X-VERSION:3" ++ ['\n']) := by
    decide
  have e2 : chars "?u=seg0.ts\n" = chars "?u=" ++ chars "seg0.ts" ++ ['\n'] := by
    decide
  have e3 : chars "?u=seg1.ts" = chars "?u=" ++ chars "seg1.ts" := by decide
  rw [e1, e2, e3]
  simp [List.append_assoc]

/-- Claim C2, counterexample: for the URI line " seg0.ts" (leading
whitespace), percent-decoding the u parameter of the output line gives
the stripped line "seg0.ts", not the original line, because the code
quotes the stripped line. -/
theorem claim_C2_counterexample :
    (let segBase := chars "https://app.example/api/v1/music/stream/segment/abc123"
     unquote ((rewriteLine segBase (chars " seg0.ts")).drop (segBase.length + 3)) ≠
       chars " seg0.ts") := by
  decide

/-- Claim C2, amended: every URI line (stripped form non-empty and not
starting with a hash sign) is replaced by the segment url with the
stripped line percent-encoded into the query parameter u, and
percent-decoding that parameter reproduces the stripped line exactly;
in particular it reproduces the original line whenever the line
carries no surrounding whitespace. -/
theorem claim_C2 (base line : List Char)
    (h1 : pyStrip line ≠ []) (h2 : (pyStrip line).head? ≠ some '#') :
    rewriteLine base line = base ++ chars "?u=" ++ quote (pyStrip line) ∧
    unquote (quote (pyStrip line)) = pyStrip line ∧
    (pyStrip line = line → unquote (quote (pyStrip line)) = line) := by
  refine ⟨?_, unquote_quote _, ?_⟩
  · unfold rewriteLine
    rw [if_neg h1, if_neg h2]
  · intro heq
    rw [unquote_quote, heq]

theorem claim_C2_witness :
    rewriteLine (chars "B") (chars "x.ts") =
      chars "B" ++ chars "?u=" ++ quote (pyStrip (chars "x.ts")) ∧
    unquote (quote (pyStrip (chars "x.ts"))) = pyStrip (chars "x.ts") ∧
    (pyStrip (chars "x.ts") = chars "x.ts" →
      unquote (quote (pyStrip (chars "x.ts"))) = chars "x.ts") :=
  claim_C2 (chars "B") (chars "x.ts") (by decide) (by decide)

/-- Claim C3: the rewriter emits exactly one output line per input
line, in order (the output is the join of the pointwise rewritten
lines), and every input line that is blank or whose stripped content
starts with a hash sign appears in the output unchanged. -/
theorem claim_C3 (base text : List Char) :
    rewriteManifest base text =
      joinLines ((pySplitlines text).map (rewriteLine base)) ∧
    ((pySplitlines text).map (rewriteLine base)).length =
      (pySplitlines text).length ∧
    (∀ i (h : i < (pySplitlines text).length),
      ((pySplitlines text).map (rewriteLine base)).get ⟨i, by simpa using h⟩ =
        rewriteLine base ((pySplitlines text).get ⟨i, h⟩)) ∧
    ∀ line ∈ pySplitlines text,
      (pyStrip line = [] ∨ (pyStrip line).head? = some '#') →
        rewriteLine base line = line := by
  refine ⟨rfl, List.length_map _ _, ?_, ?_⟩
  · intro i h
    simp [List.get_eq_getElem, List.getElem_map]
  · intro line _ h
    unfold rewriteLine
    rcases h with h | h
    · rw [if_pos h]
    · by_cases hs : pyStrip line = []
      · rw [if_pos hs]
      · rw [if_neg hs, if_pos h]

theorem claim_C3_witness :
    rewriteLine (chars "B") (chars "#EXTM3U") = chars "#EXTM3U" :=
  (claim_C3 (chars "B") (chars "#EXTM3U\nseg.ts")).2.2.2 (chars "#EXTM3U")
    (by decide) (by decide)

/-- Claim C8, counterexample: on the input "#EXTM3U\n\n", whose final
line is blank, the rewriter output ends with a line feed, refuting the
claim that the output never ends with a newline. -/
theorem claim_C8_counterexample :
    (rewriteManifest
        (chars "https://app.example/api/v1/music/stream/segment/abc123")
        (chars "#EXTM3U\n\n")).getLast? = some '\n' := by
  decide

/-- Claim C8, amended: the rewriter output contains no carriage return
provided the segment endpoint url contains none; input lines are split
on any line terminator, so no emitted line contains one; and one
trailing line terminator of the input adds no line (it is dropped) —
but when the input ends in a blank line the joined output does end
with a line feed. -/
theorem claim_C8 (base text : List Char) (hbase : '\r' ∉ base) :
    '\r' ∉ rewriteManifest base text ∧
    (∀ l ∈ pySplitlines text, ∀ x ∈ l, isLineTerm x = false) ∧
    (text ≠ [] → (∀ c, text.getLast? = some c → isLineTerm c = false) →
      pySplitlines (text ++ ['\n']) = pySplitlines text) := by
  refine ⟨?_, pySplitlines_no_term text, pySplitlines_append_newline text⟩
  intro hmem
  unfold rewriteManifest at hmem
  rcases mem_joinLines _ _ hmem with h | ⟨l, hl, hcl⟩
  · exact absurd h (by decide)
  · rcases List.mem_map.mp hl with ⟨l0, hl0, rfl⟩
    rcases mem_rewriteLine base l0 '\r' hcl with h | h | h | h
    · have := pySplitlines_no_term text l0 hl0 '\r' h
      simp [isLineTerm] at this
    · exact hbase h
    · exact absurd h (by decide)
    · exact quote_no_cr _ h

theorem claim_C8_witness :
    '\r' ∉ rewriteManifest (chars "B") (chars "#E\nx.ts") ∧
    (∀ l ∈ pySplitlines (chars "#E\nx.ts"), ∀ x ∈ l, isLineTerm x = false) ∧
    (chars "#E\nx.ts" ≠ [] →
      (∀ c, (chars "#E\nx.ts").getLast? = some c → isLineTerm c = false) →
      pySplitlines (chars "#E\nx.ts" ++ ['\n']) =
        pySplitlines (chars "#E\nx.ts")) :=
  claim_C8 (chars "B") (chars "#E\nx.ts") (by decide)

/-!  Claims about the relay endpoints. -/

/-- Claim C4: when the probing upstream GET of either relay returns a
status other than 200 or 206, the handler fails the request with
exactly that upstream status code, and that probe is the only
upstream request it issues (no retry). -/
theorem claim_C4 (videoId : List Char) (range : Option (List Char))
    (url : String) (base : List Char) (up2 : UpResult) (u : String)
    (r1 : UpResponse) (h200 : r1.status ≠ 200) (h206 : r1.status ≠ 206) :
    (proxy_stream videoId true range url base (.ok r1) up2).result =
      .error (.httpExc r1.status "Stream unavailable") ∧
    (proxy_stream videoId true range url base (.ok r1) up2).requests =
      [⟨url, forwardedHeaders range⟩] ∧
    (segment_proxy u range (.ok r1) up2).result =
      .error (.httpExc r1.status "Segment unavailable") ∧
    (segment_proxy u range (.ok r1) up2).requests =
      [⟨u, forwardedHeaders range⟩] := by
  have hst : ¬(r1.status = 200 ∨ r1.status = 206) := by
    rintro (h | h)
    · exact h200 h
    · exact h206 h
  refine ⟨?_, ?_, ?_, ?_⟩ <;>
    simp [proxy_stream, proxy_stream_try, segment_proxy, segment_proxy_try,
      relayBoundary, hst]

theorem claim_C4_witness :
    (proxy_stream (chars "v") true none "U" (chars "B")
        (.ok ⟨403, [], []⟩) (.ok ⟨403, [], []⟩)).result =
      .error (.httpExc 403 "Stream unavailable") ∧
    (proxy_stream (chars "v") true none "U" (chars "B")
        (.ok ⟨403, [], []⟩) (.ok ⟨403, [], []⟩)).requests =
      [⟨"U", forwardedHeaders none⟩] ∧
    (segment_proxy "S" none (.ok ⟨403, [], []⟩) (.ok ⟨403, [], []⟩)).result =
      .error (.httpExc 403 "Segment unavailable") ∧
    (segment_proxy "S" none (.ok ⟨403, [], []⟩) (.ok ⟨403, [], []⟩)).requests =
      [⟨"S", forwardedHeaders none⟩] :=
  claim_C4 (chars "v") none "U" (chars "B") (.ok ⟨403, [], []⟩) "S"
    ⟨403, [], []⟩ (by decide) (by decide)

/-- Claim C5: for a found identifier with a direct (non-HLS) upstream
and no Range header, when both upstream fetches return 200 the proxy
response has status 200 and its body is the concatenation of the
128 KiB chunks of the upstream body, which equals the upstream body
byte for byte. -/
theorem claim_C5 (videoId : List Char) (url : String) (base : List Char)
    (r1 r2 : UpResponse) (h1 : r1.status = 200)
    (hmt : containsMpegurl (chosenMediaType r1 (chars "audio/webm")) = false)
    (h2 : r2.status = 200) :
    resultStatus (proxy_stream videoId true none url base
      (.ok r1) (.ok r2)).result = some 200 ∧
    resultBody (proxy_stream videoId true none url base
      (.ok r1) (.ok r2)).result = some (.ok r2.body) ∧
    (chunkBytes r2.body).flatten = r2.body := by
  refine ⟨?_, ?_, chunkBytes_flatten r2.body⟩ <;>
    simp [proxy_stream, proxy_stream_try, relayBoundary, resultStatus,
      resultBody, streamedBody, h1, h2, hmt, chunkBytes_flatten]

theorem claim_C5_witness :
    resultStatus (proxy_stream (chars "v") true none "U" (chars "B")
      (.ok ⟨200, [], []⟩) (.ok ⟨200, [], [7, 8, 9]⟩)).result = some 200 ∧
    resultBody (proxy_stream (chars "v") true none "U" (chars "B")
      (.ok ⟨200, [], []⟩) (.ok ⟨200, [], [7, 8, 9]⟩)).result =
      some (.ok (⟨200, [], [7, 8, 9]⟩ : UpResponse).body) ∧
    (chunkBytes (⟨200, [], [7, 8, 9]⟩ : UpResponse).body).flatten =
      (⟨200, [], [7, 8, 9]⟩ : UpResponse).body :=
  claim_C5 (chars "v") "U" (chars "B") ⟨200, [], []⟩ ⟨200, [], [7, 8, 9]⟩
    rfl (by decide) rfl

/-- Claim C7: when the probing upstream GET raises any exception other
than an intentional HTTPException, either relay handler converts it at
its boundary to HTTP 500 with its fixed generic detail, and the whole
outcome is independent of the exception message, so no internal detail
can leak to the client. -/
theorem claim_C7 (videoId : List Char) (range : Option (List Char))
    (url : String) (base : List Char) (up2 : UpResult) (msg msg2 : String)
    (u : String) :
    (proxy_stream videoId true range url base (.exc msg) up2).result =
      .error (.httpExc 500 "Stream proxy failed") ∧
    proxy_stream videoId true range url base (.exc msg) up2 =
      proxy_stream videoId true range url base (.exc msg2) up2 ∧
    (segment_proxy u range (.exc msg) up2).result =
      .error (.httpExc 500 "Segment proxy failed") ∧
    segment_proxy u range (.exc msg) up2 = segment_proxy u range (.exc msg2) up2 := by
  refine ⟨?_, ?_, ?_, ?_⟩ <;>
    simp [proxy_stream, proxy_stream_try, segment_proxy, segment_proxy_try,
      relayBoundary]

/-- Claim C6: a proxy request with "Range: bytes=0-1023" forwards that
Range header verbatim in every upstream GET it issues; and when the
upstream answers 206 with a Content-Range header, the client response
has status 206 and the same Content-Range header. -/
theorem claim_C6 (videoId : List Char) (url : String) (base : List Char)
    (r1 : UpResponse) (up2 : UpResult) (cr : List Char)
    (hst : r1.status = 206)
    (hcr : getH r1.headers "Content-Range" = some cr) :
    (∀ req ∈ (proxy_stream videoId true (some (chars "bytes=0-1023")) url base
        (.ok r1) up2).requests,
      req.headers = [("Range", chars "bytes=0-1023")]) ∧
    (proxy_stream videoId true (some (chars "bytes=0-1023")) url base
      (.ok r1) up2).requests ≠ [] ∧
    resultStatus (proxy_stream videoId true (some (chars "bytes=0-1023")) url base
      (.ok r1) up2).result = some 206 ∧
    resultHeader (proxy_stream videoId true (some (chars "bytes=0-1023")) url base
      (.ok r1) up2).result "Content-Range" = some cr := by
  have hok : r1.status = 200 ∨ r1.status = 206 := Or.inr hst
  by_cases hmt : containsMpegurl (chosenMediaType r1 (chars "audio/webm")) = true
  · refine ⟨?_, ?_, ?_, ?_⟩
    · intro req hreq
      simp [proxy_stream, proxy_stream_try, relayBoundary, hok, hmt,
        forwardedHeaders] at hreq
      rw [hreq]
    · simp [proxy_stream, proxy_stream_try, relayBoundary, hok, hmt]
    · simp [proxy_stream, proxy_stream_try, relayBoundary, hok, hmt,
        resultStatus, hst]
    · simp only [proxy_stream, proxy_stream_try, relayBoundary]
      rw [if_neg (by simp)]
      simp only [if_pos hok, hmt, if_pos rfl, if_true]
      simp only [resultHeader]
      rw [getH_setH_ne _ _ _ _ (by decide), getH_setH_ne _ _ _ _ (by decide),
        getH_popH_ne _ _ _ (by decide), getH_copyLengthRange r1 _ cr hcr]
  · refine ⟨?_, ?_, ?_, ?_⟩
    · intro req hreq
      simp [proxy_stream, proxy_stream_try, relayBoundary, hok, hmt,
        forwardedHeaders] at hreq
      subst hreq
      rfl
    · simp [proxy_stream, proxy_stream_try, relayBoundary, hok, hmt]
    · simp [proxy_stream, proxy_stream_try, relayBoundary, hok, hmt,
        resultStatus, hst]
    · simp only [proxy_stream, proxy_stream_try, relayBoundary]
      rw [if_neg (by simp)]
      simp only [if_pos hok]
      rw [if_neg hmt]
      simp only [resultHeader]
      rw [getH_copyLengthRange r1 _ cr hcr]

theorem claim_C6_witness :
    (∀ req ∈ (proxy_stream (chars "v") true (some (chars "bytes=0-1023")) "U"
        (chars "B")
        (.ok ⟨206, [("Content-Range", chars "bytes 0-1023/146515")], []⟩)
        (.ok ⟨206, [], []⟩)).requests,
      req.headers = [("Range", chars "bytes=0-1023")]) ∧
    (proxy_stream (chars "v") true (some (chars "bytes=0-1023")) "U" (chars "B")
      (.ok ⟨206, [("Content-Range", chars "bytes 0-1023/146515")], []⟩)
      (.ok ⟨206, [], []⟩)).requests ≠ [] ∧
    resultStatus (proxy_stream (chars "v") true (some (chars "bytes=0-1023")) "U"
      (chars "B")
      (.ok ⟨206, [("Content-Range", chars "bytes 0-1023/146515")], []⟩)
      (.ok ⟨206, [], []⟩)).result = some 206 ∧
    resultHeader (proxy_stream (chars "v") true (some (chars "bytes=0-1023")) "U"
      (chars "B")
      (.ok ⟨206, [("Content-Range", chars "bytes 0-1023/146515")], []⟩)
      (.ok ⟨206, [], []⟩)).result "Content-Range" =
      some (chars "bytes 0-1023/146515") :=
  claim_C6 (chars "v") "U" (chars "B")
    ⟨206, [("Content-Range", chars "bytes 0-1023/146515")], []⟩
    (.ok ⟨206, [], []⟩) (chars "bytes 0-1023/146515") rfl (by decide)

/-- Claim C9, counterexample: with upstream Content-Type
"application/x-mpegURL" (an HLS media type different from the one the
code hardcodes), the proxy serves the playlist as
"application/vnd.apple.mpegurl", so the response media type does not
equal the upstream Content-Type. -/
theorem claim_C9_counterexample :
    resultMedia (proxy_stream (chars "abc") true none "U" (chars "B")
        (.ok ⟨200, [("Content-Type", chars "application/x-mpegURL")], []⟩)
        (.ok ⟨200, [], []⟩)).result =
      some (chars "application/vnd.apple.mpegurl") ∧
    chars "application/vnd.apple.mpegurl" ≠ chars "application/x-mpegURL" := by
  refine ⟨by decide, by decide⟩

/-- Claim C9, amended: with no upstream Content-Type the proxy uses the
default media type audio/webm — which does not contain the HLS marker,
so no manifest rewriting happens and the body is the streamed one —
and the segment endpoint uses the default video/mp2t; when upstream
supplies Content-Type, the segment response media type equals it, and
the proxy response media type equals it unless it contains the HLS
marker, in which case the playlist is served as
application/vnd.apple.mpegurl. -/
theorem claim_C9 (videoId : List Char) (range : Option (List Char))
    (url : String) (base : List Char) (up2 : UpResult) (u : String)
    (r1 : UpResponse) (hst : r1.status = 200) :
    (getH r1.headers "Content-Type" = none →
      resultMedia (proxy_stream videoId true range url base (.ok r1) up2).result =
        some (chars "audio/webm") ∧
      containsMpegurl (chars "audio/webm") = false ∧
      resultBody (proxy_stream videoId true range url base (.ok r1) up2).result =
        some (streamedBody up2 "Stream unavailable")) ∧
    (getH r1.headers "Content-Type" = none →
      resultMedia (segment_proxy u range (.ok r1) up2).result =
        some (chars "video/mp2t")) ∧
    (∀ ct, getH r1.headers "Content-Type" = some ct →
      resultMedia (segment_proxy u range (.ok r1) up2).result = some ct) ∧
    (∀ ct, getH r1.headers "Content-Type" = some ct →
      containsMpegurl ct = false →
      resultMedia (proxy_stream videoId true range url base (.ok r1) up2).result =
        some ct) ∧
    (∀ ct, getH r1.headers "Content-Type" = some ct →
      containsMpegurl ct = true →
      resultMedia (proxy_stream videoId true range url base (.ok r1) up2).result =
        some (chars "application/vnd.apple.mpegurl")) := by
  have hok : r1.status = 200 ∨ r1.status = 206 := Or.inl hst
  refine ⟨?_, ?_, ?_, ?_, ?_⟩
  · intro hct
    have hmtv : chosenMediaType r1 (chars "audio/webm") = chars "audio/webm" := by
      simp [chosenMediaType, hct]
    refine ⟨?_, by decide, ?_⟩ <;>
      simp [proxy_stream, proxy_stream_try, relayBoundary, hok, hmtv,
        resultMedia, resultBody, show containsMpegurl (chars "audio/webm") = false
          from by decide]
  · intro hct
    have hmtv : chosenMediaType r1 (chars "video/mp2t") = chars "video/mp2t" := by
      simp [chosenMediaType, hct]
    simp [segment_proxy, segment_proxy_try, relayBoundary, hok, hmtv,
      resultMedia]
  · intro ct hct
    have hmtv : chosenMediaType r1 (chars "video/mp2t") = ct := by
      simp [chosenMediaType, hct]
    simp [segment_proxy, segment_proxy_try, relayBoundary, hok, hmtv,
      resultMedia]
  · intro ct hct hmt
    have hmtv : chosenMediaType r1 (chars "audio/webm") = ct := by
      simp [chosenMediaType, hct]
    simp [proxy_stream, proxy_stream_try, relayBoundary, hok, hmtv, hmt,
      resultMedia]
  · intro ct hct hmt
    have hmtv : chosenMediaType r1 (chars "audio/webm") = ct := by
      simp [chosenMediaType, hct]
    simp [proxy_stream, proxy_stream_try, relayBoundary, hok, hmtv, hmt,
      resultMedia]

theorem claim_C9_witness :
    resultMedia (proxy_stream (chars "v") true none "U" (chars "B")
        (.ok ⟨200, [], []⟩) (.ok ⟨200, [], []⟩)).result =
      some (chars "audio/webm") ∧
    containsMpegurl (chars "audio/webm") = false ∧
    resultBody (proxy_stream (chars "v") true none "U" (chars "B")
        (.ok ⟨200, [], []⟩) (.ok ⟨200, [], []⟩)).result =
      some (streamedBody (.ok ⟨200, [], []⟩) "Stream unavailable") :=
  (claim_C9 (chars "v") none "U" (chars "B") (.ok ⟨200, [], []⟩) "u"
    ⟨200, [], []⟩ rfl).1 rfl

/-- Claim C10: on the direct (non-HLS) path the proxy issues exactly
two upstream GET requests to the same url with the same forwarded
headers, the client status echoes the first (probing) response, and
the status, headers and media type of the client response do not
depend on the outcome of the second (streaming) fetch. -/
theorem claim_C10 (videoId : List Char) (range : Option (List Char))
    (url : String) (base : List Char) (r1 : UpResponse) (up2 up2h : UpResult)
    (hst : r1.status = 200 ∨ r1.status = 206)
    (hmt : containsMpegurl (chosenMediaType r1 (chars "audio/webm")) = false) :
    (proxy_stream videoId true range url base (.ok r1) up2).requests =
      [⟨url, forwardedHeaders range⟩, ⟨url, forwardedHeaders range⟩] ∧
    resultStatus (proxy_stream videoId true range url base (.ok r1) up2).result =
      some r1.status ∧
    resultStatus (proxy_stream videoId true range url base (.ok r1) up2).result =
      resultStatus (proxy_stream videoId true range url base (.ok r1) up2h).result ∧
    resultHeaders (proxy_stream videoId true range url base (.ok r1) up2).result =
      resultHeaders (proxy_stream videoId true range url base (.ok r1) up2h).result ∧
    resultMedia (proxy_stream videoId true range url base (.ok r1) up2).result =
      resultMedia (proxy_stream videoId true range url base (.ok r1) up2h).result := by
  refine ⟨?_, ?_, ?_, ?_, ?_⟩ <;>
    simp [proxy_stream, proxy_stream_try, relayBoundary, hst, hmt,
      resultStatus, resultHeaders, resultMedia]

theorem claim_C10_witness :
    (proxy_stream (chars "v") true none "U" (chars "B") (.ok ⟨200, [], []⟩)
      (.ok ⟨200, [], []⟩)).requests =
      [⟨"U", forwardedHeaders none⟩, ⟨"U", forwardedHeaders none⟩] ∧
    resultStatus (proxy_stream (chars "v") true none "U" (chars "B")
      (.ok ⟨200, [], []⟩) (.ok ⟨200, [], []⟩)).result = some 200 ∧
    resultStatus (proxy_stream (chars "v") true none "U" (chars "B")
        (.ok ⟨200, [], []⟩) (.ok ⟨200, [], []⟩)).result =
      resultStatus (proxy_stream (chars "v") true none "U" (chars "B")
        (.ok ⟨200, [], []⟩) (.exc "boom")).result ∧
    resultHeaders (proxy_stream (chars "v") true none "U" (chars "B")
        (.ok ⟨200, [], []⟩) (.ok ⟨200, [], []⟩)).result =
      resultHeaders (proxy_stream (chars "v") true none "U" (chars "B")
        (.ok ⟨200, [], []⟩) (.exc "boom")).result ∧
    resultMedia (proxy_stream (chars "v") true none "U" (chars "B")
        (.ok ⟨200, [], []⟩) (.ok ⟨200, [], []⟩)).result =
      resultMedia (proxy_stream (chars "v") true none "U" (chars "B")
        (.ok ⟨200, [], []⟩) (.exc "boom")).result :=
  claim_C10 (chars "v") none "U" (chars "B") ⟨200, [], []⟩
    (.ok ⟨200, [], []⟩) (.exc "boom") (Or.inl rfl) (by decide)
